import Mathlib

/-!
Verification of `zero-scraper` (`internal/scrape/scrape.go` and the two `main`
entry points) against its specification.

The HTML document handed to the colly collector is modelled as a forest of
nodes.  Colly's `OnHTML(sel, f)` invokes `f` on every element matching `sel`,
in document order; `HTMLElement.Text` (goquery `Selection.Text`) is the
concatenation of all text nodes in the element's subtree; `e.ForEach("a", f)`
visits every anchor element in the subtree below `e`, in document order.  The
selector `div.Page-authors` matches a `div` whose class list contains
`Page-authors`; the selector `p` (resp. `a`) matches by tag name.  The HTTP
fetch performed by `c.Visit` is modelled as a function from URLs to either an
error or a parsed document.

Machine strings are modelled as `List Char`; `strings.TrimSpace` is modelled
by `trimSpace` below (dropping leading and trailing whitespace), and
`strings.Join(xs, " and ")` by `joinAnd`.
-/

/-- Whitespace test used by `strings.TrimSpace` (the ASCII fragment of Go's
`unicode.IsSpace`; the Unicode-only space characters play no role here). -/
def isSpaceChar (c : Char) : Bool :=
  c == ' ' || c == '\t' || c == '\n' || c == '\x0b' || c == '\x0c' || c == '\r'

/-- Drop leading whitespace. -/
def trimLeft (s : List Char) : List Char :=
  s.dropWhile isSpaceChar

/-- Drop trailing whitespace. -/
def trimRight (s : List Char) : List Char :=
  (s.reverse.dropWhile isSpaceChar).reverse

/-- Model of `strings.TrimSpace`: drop leading and trailing whitespace. -/
def trimSpace (s : List Char) : List Char :=
  trimRight (trimLeft s)

/-- Model of `strings.Join(names, " and ")` as used at `scrape.go:65`. -/
def joinAnd : List (List Char) → List Char
  | [] => []
  | [n] => n
  | n :: m :: rest => n ++ " and ".toList ++ joinAnd (m :: rest)

/-- An HTML node: a text node, or an element with a tag, a class list and
children. -/
inductive Node where
  | text (s : List Char)
  | elem (tag : String) (classes : List String) (children : List Node)

/-- The children of a node (a text node has none). -/
def childrenOf : Node → List Node
  | .text _ => []
  | .elem _ _ cs => cs

mutual

/-- Model of `HTMLElement.Text`: concatenation of all text nodes in the subtree. -/
def nodeText : Node → List Char
  | .text s => s
  | .elem _ _ cs => nodesText cs

/-- Concatenated text of a forest, in document order. -/
def nodesText : List Node → List Char
  | [] => []
  | n :: ns => nodeText n ++ nodesText ns

end

mutual

/-- All nodes of a subtree satisfying `p`, in document (preorder) order. -/
def findAllNode (p : Node → Bool) : Node → List Node
  | .text s => if p (.text s) then [.text s] else []
  | .elem t c cs =>
      (if p (.elem t c cs) then [.elem t c cs] else []) ++ findAllList p cs

/-- All nodes of a forest satisfying `p`, in document (preorder) order. -/
def findAllList (p : Node → Bool) : List Node → List Node
  | [] => []
  | n :: ns => findAllNode p n ++ findAllList p ns

end

/-- The selector `div.Page-authors` (`scrape.go:29`). -/
def isAuthorsDiv : Node → Bool
  | .text _ => false
  | .elem tag classes _ => tag == "div" && classes.contains "Page-authors"

/-- The selector `p` (`scrape.go:47`). -/
def isP : Node → Bool
  | .text _ => false
  | .elem tag _ _ => tag == "p"

/-- The selector `a` (`scrape.go:37`). -/
def isAnchor : Node → Bool
  | .text _ => false
  | .elem tag _ _ => tag == "a"

/-- The body of the `div.Page-authors` callback (`scrape.go:29-44`), acting on
the state `(author, authors)`: if the element's raw text is non-empty the
combined byline is overwritten with its trimmed text, and every anchor in the
element whose trimmed text is non-empty has that text appended to the author
list. -/
def authorStep (st : List Char × List (List Char)) (d : Node) :
    List Char × List (List Char) :=
  (if nodeText d = [] then st.1 else trimSpace (nodeText d),
   (findAllList isAnchor (childrenOf d)).foldl
     (fun ns a =>
       if trimSpace (nodeText a) = [] then ns else ns ++ [trimSpace (nodeText a)])
     st.2)

/-- Processing of all matched `div.Page-authors` elements, in document order,
starting from the zero values of `author` and `authors` (`scrape.go:15-19`). -/
def processAuthorDivs (ds : List Node) : List Char × List (List Char) :=
  ds.foldl authorStep ([], [])

/-- The value of the `author` variable after the visit completes. -/
def combinedByline (doc : List Node) : List Char :=
  (processAuthorDivs (findAllList isAuthorsDiv doc)).1

/-- The value of the `authors` slice after the visit completes. -/
def authorNames (doc : List Node) : List (List Char) :=
  (processAuthorDivs (findAllList isAuthorsDiv doc)).2

/-- The value of `articleContent` after the visit completes: the `p` callback
(`scrape.go:47-50`) appends each paragraph's text plus a newline. -/
def articleContent (doc : List Node) : List Char :=
  (findAllList isP doc).foldl (fun acc p => acc ++ (nodeText p ++ ['\n'])) []

/-- Model of `ScrapeArticle` (`scrape.go:13-70`) on a successfully fetched and parsed
document: the content accumulator, and the byline, which falls back to the
`" and "`-join of the individual author names exactly when the combined byline
is empty and the list is non-empty (`scrape.go:64-66`). -/
def scrapeArticle (doc : List Node) : List Char × List Char :=
  (articleContent doc,
   if (processAuthorDivs (findAllList isAuthorsDiv doc)).1 = [] ∧
      (processAuthorDivs (findAllList isAuthorsDiv doc)).2 ≠ []
   then joinAnd (processAuthorDivs (findAllList isAuthorsDiv doc)).2
   else (processAuthorDivs (findAllList isAuthorsDiv doc)).1)

/-- The value `ScrapeArticle` returns to its caller, with the Go error slot. -/
structure ScrapeResult where
  content : List Char
  byline : List Char
  err : Option String
deriving DecidableEq

/-- Model of `ScrapeArticle` including the fetch: `c.Visit(url)` either fails, in which
case `("", "", err)` is returned (`scrape.go:58-61`), or yields a parsed
document to which the callbacks apply. -/
def scrapeArticleFetch (fetch : String → Except String (List Node))
    (url : String) : ScrapeResult :=
  match fetch url with
  | .error e => ⟨[], [], some e⟩
  | .ok doc => ⟨(scrapeArticle doc).1, (scrapeArticle doc).2, none⟩

/-- Outcome of running `main`: either a fatal diagnostic (`log.Fatal`), or the
sequence of lines reported to the console.  `log.Println` and `fmt.Println`
output are both modelled as reported lines. -/
inductive MainResult where
  | fatal (msg : String)
  | output (lines : List (List Char))
deriving DecidableEq

/-- The `main` entry point (`cmd` file, lines 13-47): require the `-url` flag,
call `ScrapeArticle`, die on error, then report content and byline, with the
fixed messages for the empty cases. -/
def mainRun (fetch : String → Except String (List Node)) (urlFlag : String) :
    MainResult :=
  if urlFlag = "" then .fatal "Please provide a URL using the -url flag"
  else
    match scrapeArticleFetch fetch urlFlag with
    | ⟨_, _, some e⟩ => .fatal ("Error scraping article: " ++ e)
    | ⟨content, byline, none⟩ =>
        .output
          ((if content = [] then ["No article content found.".toList]
            else ["Scraped Article Content:".toList, content]) ++
           (if byline = [] then ["No author information found.".toList]
            else ["Byline: ".toList ++ byline]))

/-- Anchor element `<a>Jane Doe</a>`. -/
def aJane : Node := .elem "a" [] [.text "Jane Doe".toList]

/-- Anchor element `<a>John Smith</a>`. -/
def aJohn : Node := .elem "a" [] [.text "John Smith".toList]

/-- The element `<div class="Page-authors"><a>Jane Doe</a><a>John Smith</a></div>`:
two linked author names and no other direct text. -/
def divAnchors : Node := .elem "div" ["Page-authors"] [aJane, aJohn]

/-- The element `<div class="Page-authors"> </div>`: a matched element whose text content
is whitespace-only but non-empty. -/
def divBlank : Node := .elem "div" ["Page-authors"] [.text " ".toList]

/-- A document whose only `Page-authors` div holds exactly the two anchors. -/
def docSingleAuthors : List Node := [divAnchors]

/-- A document with the two-anchor div followed by a whitespace-only matched
div, which drives the combined byline back to empty. -/
def docJoin : List Node := [divAnchors, divBlank]

/-- The element `<div class="Page-authors"> By <a>Jane Doe </a></div>`: trimmed text
`"By Jane Doe"`, with a nested anchor. -/
def divByline : Node :=
  .elem "div" ["Page-authors"] [.text " By ".toList, .elem "a" [] [.text "Jane Doe ".toList]]

/-- A document whose only `Page-authors` div has trimmed text `"By Jane Doe"`. -/
def docByline : List Node := [divByline]

/-- The element `<div class="Page-authors">By Jane Doe</div>` with the byline as direct
text. -/
def divNamed : Node := .elem "div" ["Page-authors"] [.text "By Jane Doe".toList]

/-- A document where a named byline div is followed by a whitespace-only
matched div. -/
def docOverwrite : List Node := [divNamed, divBlank]

/-- A document with one paragraph. -/
def docPara : List Node := [.elem "p" [] [.text "Hello world.".toList]]

/-- A fetch on which the HTTP request always fails. -/
def fetchFail : String → Except String (List Node) :=
  fun _ => .error "connection refused"

/-- A fetch that always yields the empty document. -/
def fetchEmptyDoc : String → Except String (List Node) :=
  fun _ => .ok []

/-- Specification-side reading of last-match-wins: the trimmed text of the
last matched element with non-empty raw text, or `[]` when there is none. -/
def lastNonEmptyTrimmedText (ds : List Node) : List Char :=
  match (ds.filter (fun d => !(nodeText d).isEmpty)).getLast? with
  | some d => trimSpace (nodeText d)
  | none => []

/-- Specification-side reading of the names one matched element contributes:
the trimmed texts of its anchors, with the empty ones dropped, in document
order. -/
def divAnchorNames (d : Node) : List (List Char) :=
  ((findAllList isAnchor (childrenOf d)).map (fun a => trimSpace (nodeText a))).filter
    (fun n => !n.isEmpty)

/-! ### Lemmas about whitespace trimming -/

theorem dropWhile_idem (p : α → Bool) (l : List α) :
    (l.dropWhile p).dropWhile p = l.dropWhile p := by
  induction l with
  | nil => rfl
  | cons a t ih =>
    cases hpa : p a with
    | true => rw [List.dropWhile_cons_of_pos (by simp [hpa])]; exact ih
    | false =>
      rw [List.dropWhile_cons_of_neg (by simp [hpa]),
        List.dropWhile_cons_of_neg (by simp [hpa])]

theorem head_not_of_dropWhile_eq_self {p : α → Bool} {a : α} {t : List α}
    (h : (a :: t).dropWhile p = a :: t) : p a = false := by
  cases hpa : p a with
  | false => rfl
  | true =>
    exfalso
    rw [List.dropWhile_cons_of_pos (by simp [hpa])] at h
    have h1 : (t.dropWhile p).length ≤ t.length := (List.dropWhile_sublist p).length_le
    rw [h] at h1
    simp only [List.length_cons] at h1
    omega

theorem dropWhile_append_self {p : α → Bool} {n : List α}
    (h : n.dropWhile p = n) (hne : n ≠ []) (x : List α) :
    (n ++ x).dropWhile p = n ++ x := by
  cases n with
  | nil => exact absurd rfl hne
  | cons a t =>
    have hpa : p a = false := head_not_of_dropWhile_eq_self h
    rw [List.cons_append, List.dropWhile_cons_of_neg (by simp [hpa])]

theorem trimLeft_trimLeft (s : List Char) : trimLeft (trimLeft s) = trimLeft s :=
  dropWhile_idem _ s

theorem trimRight_trimRight (s : List Char) :
    trimRight (trimRight s) = trimRight s := by
  unfold trimRight
  rw [List.reverse_reverse, dropWhile_idem]

theorem trimRight_append_rest (s : List Char) :
    trimRight s ++ (s.reverse.takeWhile isSpaceChar).reverse = s := by
  unfold trimRight
  rw [← List.reverse_append, List.takeWhile_append_dropWhile, List.reverse_reverse]

theorem trimRight_rev {n : List Char} (h : trimRight n = n) :
    n.reverse.dropWhile isSpaceChar = n.reverse := by
  unfold trimRight at h
  have h2 := congrArg List.reverse h
  rwa [List.reverse_reverse] at h2

theorem trimLeft_trimRight_of_trimLeft {s : List Char} (h : trimLeft s = s) :
    trimLeft (trimRight s) = trimRight s := by
  cases htr : trimRight s with
  | nil => rfl
  | cons a t =>
    have hdecomp := trimRight_append_rest s
    rw [htr] at hdecomp
    rw [← hdecomp] at h
    have hpa : isSpaceChar a = false := head_not_of_dropWhile_eq_self h
    unfold trimLeft
    rw [List.dropWhile_cons_of_neg (by simp [hpa])]

theorem trimSpace_trimSpace (s : List Char) :
    trimSpace (trimSpace s) = trimSpace s := by
  unfold trimSpace
  rw [trimLeft_trimRight_of_trimLeft (trimLeft_trimLeft s), trimRight_trimRight]

theorem dropWhile_eq_self_of_length {p : α → Bool} {l : List α}
    (h : l.length ≤ (l.dropWhile p).length) : l.dropWhile p = l := by
  have happ := List.takeWhile_append_dropWhile p l
  have hlen : (l.takeWhile p).length + (l.dropWhile p).length = l.length := by
    rw [← List.length_append, happ]
  have h0 : l.takeWhile p = [] := List.length_eq_zero.mp (by omega)
  rw [h0, List.nil_append] at happ
  exact happ

theorem length_trimRight_le (s : List Char) : (trimRight s).length ≤ s.length := by
  unfold trimRight
  rw [List.length_reverse]
  calc (s.reverse.dropWhile isSpaceChar).length
      ≤ s.reverse.length := (List.dropWhile_sublist _).length_le
    _ = s.length := List.length_reverse _

theorem trimLeft_eq_self_of_trimSpace {s : List Char} (h : trimSpace s = s) :
    trimLeft s = s := by
  apply dropWhile_eq_self_of_length
  have h1 : (trimSpace s).length ≤ (trimLeft s).length := length_trimRight_le _
  rw [h] at h1
  exact h1

theorem trimRight_eq_self_of_trimSpace {s : List Char} (h : trimSpace s = s) :
    trimRight s = s := by
  have hl := trimLeft_eq_self_of_trimSpace h
  unfold trimSpace at h
  rwa [hl] at h

theorem trimRight_append_self {n : List Char} (h : trimRight n = n) (hne : n ≠ [])
    (x : List Char) : trimRight (x ++ n) = x ++ n := by
  have h' := trimRight_rev h
  have hne' : n.reverse ≠ [] := by simpa using hne
  unfold trimRight
  rw [List.reverse_append, dropWhile_append_self h' hne', ← List.reverse_append,
    List.reverse_reverse]

/-! ### Invariants of the author-state fold -/

theorem authorStep_fst (st : List Char × List (List Char)) (d : Node) :
    (authorStep st d).1 = if nodeText d = [] then st.1 else trimSpace (nodeText d) := rfl

theorem authorStep_fst_trim (st : List Char × List (List Char)) (d : Node)
    (h : trimSpace st.1 = st.1) :
    trimSpace (authorStep st d).1 = (authorStep st d).1 := by
  rw [authorStep_fst]
  by_cases hd : nodeText d = []
  · rw [if_pos hd]; exact h
  · rw [if_neg hd]; exact trimSpace_trimSpace _

theorem foldl_authorStep_fst_trim (ds : List Node) :
    ∀ st : List Char × List (List Char), trimSpace st.1 = st.1 →
      trimSpace (ds.foldl authorStep st).1 = (ds.foldl authorStep st).1 := by
  induction ds with
  | nil => intro st h; exact h
  | cons d ds ih =>
    intro st h
    rw [List.foldl_cons]
    exact ih _ (authorStep_fst_trim st d h)

theorem anchorFold_mem (l : List Node) :
    ∀ ns : List (List Char),
      (∀ n ∈ ns, trimSpace n = n ∧ n ≠ []) →
      ∀ n ∈ l.foldl
        (fun ns a =>
          if trimSpace (nodeText a) = [] then ns else ns ++ [trimSpace (nodeText a)]) ns,
        trimSpace n = n ∧ n ≠ [] := by
  induction l with
  | nil => intro ns h; exact h
  | cons a l ih =>
    intro ns h
    rw [List.foldl_cons]
    apply ih
    by_cases ha : trimSpace (nodeText a) = []
    · rw [if_pos ha]; exact h
    · rw [if_neg ha]
      intro n hn
      rcases List.mem_append.mp hn with hn | hn
      · exact h n hn
      · rw [List.mem_singleton.mp hn]
        exact ⟨trimSpace_trimSpace _, ha⟩

theorem foldl_authorStep_snd_mem (ds : List Node) :
    ∀ st : List Char × List (List Char),
      (∀ n ∈ st.2, trimSpace n = n ∧ n ≠ []) →
      ∀ n ∈ (ds.foldl authorStep st).2, trimSpace n = n ∧ n ≠ [] := by
  induction ds with
  | nil => intro st h; exact h
  | cons d ds ih =>
    intro st h
    rw [List.foldl_cons]
    exact ih _ (anchorFold_mem _ st.2 h)

/-! ### Lemmas about the name join -/

theorem joinAnd_ne_nil : ∀ names : List (List Char),
    (∀ n ∈ names, n ≠ []) → names ≠ [] → joinAnd names ≠ [] := by
  intro names h hne
  match names with
  | [] => exact absurd rfl hne
  | [n] => exact h n (by simp)
  | n :: m :: rest =>
    simp only [joinAnd]
    intro hc
    exact h n (by simp) (List.append_eq_nil.mp (List.append_eq_nil.mp hc).1).1

theorem joinAnd_trimLeft : ∀ names : List (List Char),
    (∀ n ∈ names, trimSpace n = n ∧ n ≠ []) → names ≠ [] →
    trimLeft (joinAnd names) = joinAnd names := by
  intro names h hne
  match names with
  | [] => exact absurd rfl hne
  | [n] => exact trimLeft_eq_self_of_trimSpace (h n (by simp)).1
  | n :: m :: rest =>
    simp only [joinAnd]
    rw [List.append_assoc]
    have hn := h n (by simp)
    exact dropWhile_append_self (trimLeft_eq_self_of_trimSpace hn.1) hn.2 _

theorem joinAnd_trimRight : ∀ names : List (List Char),
    (∀ n ∈ names, trimSpace n = n ∧ n ≠ []) → names ≠ [] →
    trimRight (joinAnd names) = joinAnd names := by
  intro names
  induction names with
  | nil => intro _ hne; exact absurd rfl hne
  | cons n rest ih =>
    intro h _
    cases rest with
    | nil => exact trimRight_eq_self_of_trimSpace (h n (by simp)).1
    | cons m rest2 =>
      simp only [joinAnd]
      have hjr : trimRight (joinAnd (m :: rest2)) = joinAnd (m :: rest2) :=
        ih (fun x hx => h x (by simp [hx])) (by simp)
      have hjne : joinAnd (m :: rest2) ≠ [] :=
        joinAnd_ne_nil _ (fun x hx => (h x (by simp [hx])).2) (by simp)
      exact trimRight_append_self hjr hjne _

theorem joinAnd_trim (names : List (List Char))
    (h : ∀ n ∈ names, trimSpace n = n ∧ n ≠ []) (hne : names ≠ []) :
    trimSpace (joinAnd names) = joinAnd names := by
  unfold trimSpace
  rw [joinAnd_trimLeft names h hne, joinAnd_trimRight names h hne]

/-! ### Structure of the returned byline and content -/

theorem scrapeArticle_snd (doc : List Node) :
    (scrapeArticle doc).2 =
      if combinedByline doc = [] ∧ authorNames doc ≠ [] then joinAnd (authorNames doc)
      else combinedByline doc := rfl

theorem foldl_append_join {α β : Type} (f : α → List β) :
    ∀ (l : List α) (acc : List β),
      l.foldl (fun a x => a ++ f x) acc = acc ++ (l.map f).flatten := by
  intro l
  induction l with
  | nil => intro acc; simp
  | cons x xs ih =>
    intro acc
    rw [List.foldl_cons, ih, List.map_cons, List.flatten_cons, List.append_assoc]

/-- Claim C10: the byline returned by `ScrapeArticle` never carries leading or
trailing whitespace: trimming it is the identity.  It is either empty, the
`TrimSpace` of some element text, or the `" and "`-join of individually
trimmed non-empty names. -/
theorem claim_C10 (doc : List Node) :
    trimSpace (scrapeArticle doc).2 = (scrapeArticle doc).2 := by
  rw [scrapeArticle_snd]
  by_cases hc : combinedByline doc = [] ∧ authorNames doc ≠ []
  · rw [if_pos hc]
    refine joinAnd_trim _ ?_ hc.2
    exact foldl_authorStep_snd_mem _ ([], []) (by simp)
  · rw [if_neg hc]
    exact foldl_authorStep_fst_trim _ ([], []) rfl

/-- Claim C1: for every document with at least one `p` element, the content
returned by `ScrapeArticle` is the concatenation, in document order, of each
`p` element's text followed by a newline; nothing about `Page-authors` divs
enters the result. -/
theorem claim_C1 (doc : List Node) (h : 0 < (findAllList isP doc).length) :
    (scrapeArticle doc).1 =
      ((findAllList isP doc).map (fun p => nodeText p ++ ['\n'])).flatten := by
  show articleContent doc = _
  unfold articleContent
  exact (foldl_append_join _ _ _).trans (List.nil_append _)

theorem claim_C1_witness :
    0 < (findAllList isP docPara).length ∧
    (scrapeArticle docPara).1 =
      ((findAllList isP docPara).map (fun p => nodeText p ++ ['\n'])).flatten :=
  ⟨by decide, claim_C1 docPara (by decide)⟩

/-- Claim C2: whenever the combined byline ends up empty while individual
author names were collected, the byline returned by `ScrapeArticle` is those
names joined with the literal separator `" and "`, in encounter order. -/
theorem claim_C2 (doc : List Node) (h1 : combinedByline doc = [])
    (h2 : authorNames doc ≠ []) :
    (scrapeArticle doc).2 = joinAnd (authorNames doc) := by
  rw [scrapeArticle_snd, if_pos ⟨h1, h2⟩]

theorem claim_C2_witness :
    combinedByline docJoin = [] ∧ authorNames docJoin ≠ [] ∧
    (scrapeArticle docJoin).2 = joinAnd (authorNames docJoin) :=
  ⟨by decide, by decide, claim_C2 docJoin (by decide) (by decide)⟩

/-- Claim C3 counterexample: in the document whose single `Page-authors` div
holds exactly the anchors `Jane Doe` and `John Smith` and no other direct
text, the element's raw text is their concatenation, which is non-empty; the
combined byline is therefore set and returned, and the `" and "`-join never
applies.  The byline is `"Jane DoeJohn Smith"`, not `"Jane Doe and John
Smith"` as claimed. -/
theorem claim_C3_counterexample :
    (scrapeArticle docSingleAuthors).2 = "Jane DoeJohn Smith".toList ∧
    (scrapeArticle docSingleAuthors).2 ≠ "Jane Doe and John Smith".toList := by
  decide

/-- Claim C3 amended: for a document whose matched `Page-authors` elements are
exactly one div holding the two anchors `Jane Doe` and `John Smith`, the
byline is the trimmed full text of that div, `"Jane DoeJohn Smith"`; the
`" and "`-join applies only when the combined byline ends up empty. -/
theorem claim_C3_amended (doc : List Node) (classes : List String)
    (h : findAllList isAuthorsDiv doc = [.elem "div" classes [aJane, aJohn]]) :
    (scrapeArticle doc).2 = "Jane DoeJohn Smith".toList := by
  have hb : combinedByline doc = "Jane DoeJohn Smith".toList := by
    unfold combinedByline
    rw [h]
    rfl
  have hne : ¬(combinedByline doc = [] ∧ authorNames doc ≠ []) := by
    rintro ⟨h1, -⟩
    rw [hb] at h1
    exact absurd h1 (by decide)
  rw [scrapeArticle_snd, if_neg hne, hb]

theorem claim_C3_witness :
    findAllList isAuthorsDiv docSingleAuthors = [.elem "div" ["Page-authors"] [aJane, aJohn]] ∧
    (scrapeArticle docSingleAuthors).2 = "Jane DoeJohn Smith".toList :=
  ⟨rfl, claim_C3_amended docSingleAuthors ["Page-authors"] rfl⟩

/-- Claim C4: for a document whose matched `Page-authors` elements are exactly
one element with trimmed text `"By Jane Doe"`, the byline is `"By Jane Doe"`
verbatim; any anchor names collected inside the element do not affect the
result, since the combined byline is non-empty. -/
theorem claim_C4 (doc : List Node) (d : Node)
    (h : findAllList isAuthorsDiv doc = [d])
    (ht : trimSpace (nodeText d) = "By Jane Doe".toList) :
    (scrapeArticle doc).2 = "By Jane Doe".toList := by
  have hraw : ¬nodeText d = [] := by
    intro h0
    rw [h0] at ht
    exact absurd ht (by decide)
  have hb : combinedByline doc = "By Jane Doe".toList := by
    have hstep : combinedByline doc = if nodeText d = [] then [] else trimSpace (nodeText d) := by
      unfold combinedByline
      rw [h]
      rfl
    rw [hstep, if_neg hraw, ht]
  have hne : ¬(combinedByline doc = [] ∧ authorNames doc ≠ []) := by
    rintro ⟨h1, -⟩
    rw [hb] at h1
    exact absurd h1 (by decide)
  rw [scrapeArticle_snd, if_neg hne, hb]

theorem claim_C4_witness :
    findAllList isAuthorsDiv docByline = [divByline] ∧
    trimSpace (nodeText divByline) = "By Jane Doe".toList ∧
    (scrapeArticle docByline).2 = "By Jane Doe".toList :=
  ⟨rfl, by decide, claim_C4 docByline divByline rfl (by decide)⟩

/-! ### Characterizing the author fold for multiple matches -/

theorem anchorFold_eq (l : List Node) :
    ∀ ns : List (List Char),
      l.foldl
        (fun ns a =>
          if trimSpace (nodeText a) = [] then ns else ns ++ [trimSpace (nodeText a)]) ns
        = ns ++ ((l.map (fun a => trimSpace (nodeText a))).filter (fun n => !n.isEmpty)) := by
  induction l with
  | nil => intro ns; simp
  | cons a l ih =>
    intro ns
    rw [List.foldl_cons]
    by_cases ha : trimSpace (nodeText a) = []
    · rw [if_pos ha, ih, List.map_cons, List.filter_cons]
      simp [ha]
    · rw [if_neg ha, ih, List.map_cons, List.filter_cons]
      have : (trimSpace (nodeText a)).isEmpty = false := by
        simp [List.isEmpty_iff, ha]
      simp [this, List.append_assoc]

theorem authorStep_snd (st : List Char × List (List Char)) (d : Node) :
    (authorStep st d).2 = st.2 ++ divAnchorNames d :=
  anchorFold_eq _ st.2

theorem foldl_authorStep_snd (ds : List Node) :
    ∀ st : List Char × List (List Char),
      (ds.foldl authorStep st).2 = st.2 ++ (ds.map divAnchorNames).flatten := by
  induction ds with
  | nil => intro st; simp
  | cons d ds ih =>
    intro st
    rw [List.foldl_cons, ih, authorStep_snd, List.map_cons, List.flatten_cons,
      List.append_assoc]

theorem foldl_authorStep_fst (ds : List Node) :
    ∀ st : List Char × List (List Char),
      (ds.foldl authorStep st).1 =
        match (ds.filter (fun d => !(nodeText d).isEmpty)).getLast? with
        | some d => trimSpace (nodeText d)
        | none => st.1 := by
  induction ds with
  | nil => intro st; rfl
  | cons d ds ih =>
    intro st
    rw [List.foldl_cons, ih, List.filter_cons]
    by_cases hd : nodeText d = []
    · have hemp : (nodeText d).isEmpty = true := by simp [List.isEmpty_iff, hd]
      rw [hemp]
      simp only [Bool.not_true, Bool.false_eq_true, if_false, authorStep_fst, if_pos hd]
    · have hemp : (nodeText d).isEmpty = false := by simp [List.isEmpty_iff, hd]
      rw [hemp]
      simp only [Bool.not_false, if_true, authorStep_fst, if_neg hd]
      cases hf : ds.filter (fun d => !(nodeText d).isEmpty) with
      | nil => simp
      | cons e es =>
        simp only [List.getLast?_cons_cons]
        rw [List.getLast?_eq_getLast (e :: es) (List.cons_ne_nil e es)]

/-- Claim C5: when two or more `Page-authors` elements match, all are
processed: the combined byline holds the trimmed text of the last match whose
(non-empty) text triggered an update, while the author-name list is the
concatenation, in encounter order, of the trimmed non-empty anchor texts of
every match. -/
theorem claim_C5 (doc : List Node)
    (h : 2 ≤ (findAllList isAuthorsDiv doc).length) :
    combinedByline doc = lastNonEmptyTrimmedText (findAllList isAuthorsDiv doc) ∧
    authorNames doc = ((findAllList isAuthorsDiv doc).map divAnchorNames).flatten := by
  constructor
  · unfold combinedByline processAuthorDivs lastNonEmptyTrimmedText
    exact foldl_authorStep_fst _ ([], [])
  · unfold authorNames processAuthorDivs
    rw [foldl_authorStep_snd]
    rfl

theorem claim_C5_witness :
    2 ≤ (findAllList isAuthorsDiv docJoin).length ∧
    combinedByline docJoin = lastNonEmptyTrimmedText (findAllList isAuthorsDiv docJoin) ∧
    authorNames docJoin = ((findAllList isAuthorsDiv docJoin).map divAnchorNames).flatten :=
  ⟨by decide, (claim_C5 docJoin (by decide)).1, (claim_C5 docJoin (by decide)).2⟩

/-- Claim C6 counterexample: the callback tests the raw text, not the trimmed
text.  After a matched div sets the combined byline to `"By Jane Doe"`, a
second matched div whose text is a single space — trimmed text empty, so the
claim says the byline is left intact — overwrites the combined byline with
the empty string. -/
theorem claim_C6_counterexample :
    combinedByline [divNamed] = "By Jane Doe".toList ∧
    trimSpace (nodeText divBlank) = [] ∧
    combinedByline docOverwrite = [] ∧
    combinedByline docOverwrite ≠ "By Jane Doe".toList := by
  decide

/-- Claim C6 amended: processing a matched element sets the combined byline to
the trimmed text content whenever the raw text content is non-empty — so an
element whose text is whitespace-only (non-empty) resets the combined byline
to the empty string — and leaves it unchanged only when the raw text is
empty. -/
theorem claim_C6_amended (pre : List Node) (d : Node)
    (st : List Char × List (List Char)) :
    ((pre ++ [d]).foldl authorStep st).1 =
      if nodeText d = [] then (pre.foldl authorStep st).1
      else trimSpace (nodeText d) := by
  rw [List.foldl_append]
  rfl

/-- Claim C7: when the HTTP request cannot be completed, `ScrapeArticle`
returns empty content, an empty byline and the error, and `main` dies with a
fatal diagnostic: no content or byline output is ever produced. -/
theorem claim_C7 (fetch : String → Except String (List Node)) (url e : String)
    (h : fetch url = .error e) :
    scrapeArticleFetch fetch url = ⟨[], [], some e⟩ ∧
    ∀ lines, mainRun fetch url ≠ .output lines := by
  have hs : scrapeArticleFetch fetch url = ⟨[], [], some e⟩ := by
    unfold scrapeArticleFetch
    rw [h]
  refine ⟨hs, ?_⟩
  intro lines
  unfold mainRun
  by_cases hu : url = ""
  · rw [if_pos hu]
    intro hc
    exact MainResult.noConfusion hc
  · rw [if_neg hu, hs]
    intro hc
    exact MainResult.noConfusion hc

theorem claim_C7_witness :
    scrapeArticleFetch fetchFail "http://example.invalid" =
      ⟨[], [], some "connection refused"⟩ ∧
    ∀ lines, mainRun fetchFail "http://example.invalid" ≠ .output lines :=
  claim_C7 fetchFail "http://example.invalid" "connection refused" rfl

/-- Claim C8: for a fetched document with no `p` element, the content returned
by `ScrapeArticle` is empty and `main` reports the literal line
`No article content found.`. -/
theorem claim_C8 (doc : List Node) (fetch : String → Except String (List Node))
    (url : String) (hp : findAllList isP doc = []) (hu : url ≠ "")
    (hf : fetch url = .ok doc) :
    (scrapeArticle doc).1 = [] ∧
    ∃ rest, mainRun fetch url = .output ("No article content found.".toList :: rest) := by
  have hc : (scrapeArticle doc).1 = [] := by
    show articleContent doc = []
    unfold articleContent
    rw [hp]
    rfl
  refine ⟨hc, ?_⟩
  refine ⟨(if (scrapeArticle doc).2 = [] then ["No author information found.".toList]
          else ["Byline: ".toList ++ (scrapeArticle doc).2]), ?_⟩
  unfold mainRun
  rw [if_neg hu]
  unfold scrapeArticleFetch
  rw [hf]
  simp [hc]

theorem claim_C8_witness :
    (scrapeArticle ([] : List Node)).1 = [] ∧
    ∃ rest, mainRun fetchEmptyDoc "u" = .output ("No article content found.".toList :: rest) :=
  claim_C8 [] fetchEmptyDoc "u" rfl (by decide) rfl

/-- Claim C9: for a fetched document with no `Page-authors` div at all, the
byline returned by `ScrapeArticle` is empty and `main` reports the literal
line `No author information found.`. -/
theorem claim_C9 (doc : List Node) (fetch : String → Except String (List Node))
    (url : String) (hd : findAllList isAuthorsDiv doc = []) (hu : url ≠ "")
    (hf : fetch url = .ok doc) :
    (scrapeArticle doc).2 = [] ∧
    ∃ pre, mainRun fetch url = .output (pre ++ ["No author information found.".toList]) := by
  have h1 : combinedByline doc = [] := by
    unfold combinedByline
    rw [hd]
    rfl
  have h2 : authorNames doc = [] := by
    unfold authorNames
    rw [hd]
    rfl
  have hb : (scrapeArticle doc).2 = [] := by
    rw [scrapeArticle_snd, h1, h2]
    simp
  refine ⟨hb, ?_⟩
  refine ⟨(if (scrapeArticle doc).1 = [] then ["No article content found.".toList]
          else ["Scraped Article Content:".toList, (scrapeArticle doc).1]), ?_⟩
  unfold mainRun
  rw [if_neg hu]
  unfold scrapeArticleFetch
  rw [hf]
  simp [hb]

theorem claim_C9_witness :
    (scrapeArticle ([] : List Node)).2 = [] ∧
    ∃ pre, mainRun fetchEmptyDoc "u" = .output (pre ++ ["No author information found.".toList]) :=
  claim_C9 [] fetchEmptyDoc "u" rfl (by decide) rfl
